import Mathlib

/-! Definitions: the shallow embedding of `app/upstream.go` and the
modelled collaborators. -/

/-- Str models a Go string: an immutable sequence of bytes. -/
abbrev Str : Type := List Nat

/-- Traffic is the Go struct `Traffic` of package `app`: cumulative byte
counters with int64 fields `Up` and `Down`. -/
structure Traffic where
  up : Int
  down : Int
deriving DecidableEq

/-- wrap64 reduces an unbounded integer into the int64 range, modelling the
wrap-around of Go int64 addition. -/
def wrap64 (x : Int) : Int := (x + 2 ^ 63) % 2 ^ 64 - 2 ^ 63

/-- b64alphabet is the standard base64 alphabet of `encoding/base64`, as byte
values: A-Z, a-z, 0-9, then + and /. -/
def b64alphabet : Str :=
  (List.range 26).map (65 + ·) ++ (List.range 26).map (97 + ·) ++
    (List.range 10).map (48 + ·) ++ [43, 47]

/-- b64char looks up one alphabet byte for a 6-bit value. -/
def b64char (n : Nat) : Nat := b64alphabet.getD n 65

/-- b64encode models `base64.StdEncoding.EncodeToString` over the bytes of a
Go string: each group of three input bytes becomes four alphabet bytes, a
final group of two or one byte is padded with `=` (byte 61). -/
def b64encode : Str → Str
  | a :: b :: c :: rest =>
      b64char (a / 4) :: b64char (a % 4 * 16 + b / 16) ::
        b64char (b % 16 * 4 + c / 64) :: b64char (c % 64) :: b64encode rest
  | [a, b] => [b64char (a / 4), b64char (a % 4 * 16 + b / 16), b64char (b % 16 * 4), 61]
  | [a] => [b64char (a / 4), b64char (a % 4 * 16), 61, 61]
  | [] => []

/-- AuthLen is the constant `AuthLen = 76` repeated in `Validate`, `Consume`
and `Range` of the source: the base64 length of a 56-byte derived key. -/
def AuthLen : Nat := 76

/-- HeaderLen is `trojan.HeaderLen`, the length of a derived key.  Modelled
from the spec: the derived key is the hex encoding of a SHA-224 digest (the
source comments spell the pipeline out as base64 over hex over sha224),
hence 56 bytes; the trojan package itself is outside the embedded sources. -/
def HeaderLen : Nat := 56

/-- hexChar maps a 4-bit value to its lowercase hex digit byte. -/
def hexChar (n : Nat) : Nat := if n < 10 then 48 + n else 87 + n

/-- GenKey is `trojan.GenKey`.  Modelled from the spec: a deterministic one-way
derivation from a raw secret to a fixed-length key of `HeaderLen` (56) hex
digit bytes; the trojan package is outside the embedded sources, so the hash
itself is replaced by an arbitrary deterministic function with the same
shape.  Every theorem below that depends on `GenKey` uses only its
determinism and its fixed output length. -/
def GenKey (s : Str) : Str :=
  (List.range HeaderLen).map fun i => hexChar ((s.foldl (· + ·) i) % 16)

/-- canonicalize is the normalization `Validate` and `Consume` apply to their
input in both backends: an input whose length differs from `AuthLen` is
base64 encoded, an input of length `AuthLen` is taken as already canonical. -/
def canonicalize (k : Str) : Str := if k.length ≠ AuthLen then b64encode k else k

/-- alLookup reads a key from an association list, the first binding wins; the
association-list operations model the observable behaviour of a Go map. -/
def alLookup {α : Type} (m : List (Str × α)) (k : Str) : Option α :=
  match m with
  | [] => none
  | p :: rest => if p.1 = k then some p.2 else alLookup rest k

/-- alErase removes the binding of a key. -/
def alErase {α : Type} : List (Str × α) → Str → List (Str × α)
  | [], _ => []
  | p :: rest, k => if p.1 = k then alErase rest k else p :: alErase rest k

/-- alInsert writes a key, replacing any previous binding. -/
def alInsert {α : Type} (m : List (Str × α)) (k : Str) (v : α) : List (Str × α) :=
  (k, v) :: alErase m k

/-- Mm is the type of the `mm` map of `MemoryUpstream`. -/
abbrev Mm : Type := List (Str × Traffic)

/-- MemoryUpstream holds the Go map `mm`; `none` models a nil map, which is
what the module constructor `new(MemoryUpstream)` produces, since nothing in
the source ever runs `make` on it.  The `sync.RWMutex` only serializes
access and has no sequential content, so it is not modelled. -/
structure MemoryUpstream where
  mm : Option Mm
deriving DecidableEq

/-- MemoryUpstream.fresh is the value the module constructor
`new(MemoryUpstream)` returns: the map is nil. -/
def MemoryUpstream.fresh : MemoryUpstream := ⟨none⟩

/-- MemoryUpstream.AddKey base64-encodes its input unconditionally and writes
a zeroed record under the encoded key.  The Go `error` result is always
nil; the map write panics when `mm` is nil, which `none` models. -/
def MemoryUpstream.AddKey (u : MemoryUpstream) (k : Str) : Option MemoryUpstream :=
  let key := b64encode k
  match u.mm with
  | none => none
  | some m => some ⟨some (alInsert m key ⟨0, 0⟩)⟩

/-- MemoryUpstream.Add derives the key from the raw secret and delegates to
`AddKey`. -/
def MemoryUpstream.Add (u : MemoryUpstream) (s : Str) : Option MemoryUpstream :=
  u.AddKey (GenKey s)

/-- MemoryUpstream.DelKey base64-encodes its input and deletes the encoded
key.  Deleting from a nil Go map is a no-op, so no panic is possible and
the nil map stays nil; the Go `error` result is always nil. -/
def MemoryUpstream.DelKey (u : MemoryUpstream) (k : Str) : MemoryUpstream :=
  let key := b64encode k
  match u.mm with
  | none => u
  | some m => ⟨some (alErase m key)⟩

/-- MemoryUpstream.Del derives the key from the raw secret and delegates to
`DelKey`. -/
def MemoryUpstream.Del (u : MemoryUpstream) (s : Str) : MemoryUpstream :=
  u.DelKey (GenKey s)

/-- MemoryUpstream.Validate normalizes inputs whose length differs from
`AuthLen` and reports whether the key is present.  Reading a nil Go map
finds nothing. -/
def MemoryUpstream.Validate (u : MemoryUpstream) (k : Str) : Bool :=
  match u.mm with
  | none => false
  | some m => (alLookup m (canonicalize k)).isSome

/-- MemoryUpstream.Consume normalizes like `Validate`, reads the current
record (the zero value when absent, as a nil-tolerant Go map read yields),
adds the deltas with int64 arithmetic and writes the record back.  The
final write panics on a nil map, which `none` models; the Go `error`
result is always nil. -/
def MemoryUpstream.Consume (u : MemoryUpstream) (k : Str) (nr nw : Int) :
    Option MemoryUpstream :=
  let key := canonicalize k
  match u.mm with
  | none => none
  | some m =>
      let traffic := (alLookup m key).getD ⟨0, 0⟩
      some ⟨some (alInsert m key ⟨wrap64 (traffic.up + nr), wrap64 (traffic.down + nw)⟩)⟩

/-- MemoryUpstream.Range reports every stored binding; the Go callback is
modelled by returning the list of visited triples.  Ranging over a nil map
visits nothing. -/
def MemoryUpstream.Range (u : MemoryUpstream) : List (Str × Int × Int) :=
  match u.mm with
  | none => []
  | some m => m.map fun p => (p.1, p.2.up, p.2.down)

/-- StorBytes abstracts the byte slices the persistent backend stores: either
the `json.Marshal` image of a `Traffic` record (marshalling a `Traffic`
value cannot fail in Go), or bytes that do not deserialize into one. -/
inductive StorBytes where
  | traffic (t : Traffic)
  | corrupt
deriving DecidableEq

/-- StorCell is what storage associates to an existing key: either stored
bytes, or a cell whose `Load` fails with an I/O error even though the key
exists and is listed. -/
inductive StorCell where
  | val (b : StorBytes)
  | loadErr
deriving DecidableEq

/-- StorageState is the state of the `certmagic.Storage` collaborator: the
stored cells, the set of keys whose distributed lock is currently held, and
a flag making `List` fail (an enumeration I/O error). -/
structure StorageState where
  data : List (Str × StorCell)
  locks : List Str
  listErr : Bool
deriving DecidableEq

/-- stExists models `Storage.Exists`. -/
def stExists (st : StorageState) (k : Str) : Bool :=
  (alLookup st.data k).isSome

/-- stLoad models `Storage.Load`: a missing key fails with `ErrNotExist`, a
`loadErr` cell fails with an I/O error, otherwise the bytes are returned. -/
def stLoad (st : StorageState) (k : Str) : Except Unit StorBytes :=
  match alLookup st.data k with
  | none => .error ()
  | some .loadErr => .error ()
  | some (.val b) => .ok b

/-- stStore models `Storage.Store`. -/
def stStore (st : StorageState) (k : Str) (b : StorBytes) : StorageState :=
  { st with data := alInsert st.data k (.val b) }

/-- stDelete models `Storage.Delete`. -/
def stDelete (st : StorageState) (k : Str) : StorageState :=
  { st with data := alErase st.data k }

/-- stList models `Storage.List` with `recursive = false` over a flat key
space: every stored key extending the requested namespace. -/
def stList (st : StorageState) (ns : Str) : Except Unit (List Str) :=
  if st.listErr then .error ()
  else .ok ((st.data.map Prod.fst).filter fun k => ns.isPrefixOf k)

/-- stLock models `Storage.Lock`: the caller now holds the distributed lock of
the key. -/
def stLock (st : StorageState) (k : Str) : StorageState :=
  { st with locks := k :: st.locks }

/-- stUnlock models `Storage.Unlock`: the distributed lock of the key is
released. -/
def stUnlock (st : StorageState) (k : Str) : StorageState :=
  { st with locks := st.locks.filter fun x => decide (x ≠ k) }

/-- unmarshalTraffic models `json.Unmarshal` into a `Traffic` value. -/
def unmarshalTraffic (b : StorBytes) : Except Unit Traffic :=
  match b with
  | .traffic t => .ok t
  | .corrupt => .error ()

/-- strTrimPfx models `strings.TrimPrefix`. -/
def strTrimPfx (ns k : Str) : Str :=
  if ns.isPrefixOf k then k.drop ns.length else k

/-- CaddyUpstream carries the namespace `Prefix` field of the source struct as
`pfx` (`Provision` sets it to the bytes of the literal `trojan/`); the
storage and logger collaborators live in the explicit `StorageState` and
are dropped from the struct. -/
structure CaddyUpstream where
  pfx : Str
deriving DecidableEq

/-- trojanNs is the byte string `trojan/` that `Provision` assigns to the
namespace field. -/
def trojanNs : Str := [116, 114, 111, 106, 97, 110, 47]

/-- CaddyUpstream.AddKey prefixes and base64-encodes its input
unconditionally; when the key already exists it returns success without
writing, otherwise it marshals a zeroed record and stores it. -/
def CaddyUpstream.AddKey (u : CaddyUpstream) (st : StorageState) (k : Str) :
    Except Unit Unit × StorageState :=
  let key := u.pfx ++ b64encode k
  if stExists st key then (.ok (), st)
  else (.ok (), stStore st key (.traffic ⟨0, 0⟩))

/-- CaddyUpstream.Add derives the key from the raw secret and delegates to
`AddKey`. -/
def CaddyUpstream.Add (u : CaddyUpstream) (st : StorageState) (s : Str) :
    Except Unit Unit × StorageState :=
  u.AddKey st (GenKey s)

/-- CaddyUpstream.DelKey prefixes and base64-encodes its input; when the key
is absent it returns success without calling `Delete`, otherwise it
deletes. -/
def CaddyUpstream.DelKey (u : CaddyUpstream) (st : StorageState) (k : Str) :
    Except Unit Unit × StorageState :=
  let key := u.pfx ++ b64encode k
  if ¬stExists st key then (.ok (), st)
  else (.ok (), stDelete st key)

/-- CaddyUpstream.Del derives the key from the raw secret and delegates to
`DelKey`. -/
def CaddyUpstream.Del (u : CaddyUpstream) (st : StorageState) (s : Str) :
    Except Unit Unit × StorageState :=
  u.DelKey st (GenKey s)

/-- CaddyUpstream.Validate prefixes its input, base64-encoding it first when
its length differs from `AuthLen`, and checks existence only. -/
def CaddyUpstream.Validate (u : CaddyUpstream) (st : StorageState) (k : Str) : Bool :=
  stExists st (u.pfx ++ canonicalize k)

/-- CaddyUpstream.Consume normalizes like `Validate`, acquires the per-key
distributed lock, loads and deserializes the stored record — failing the
whole operation when the load or the deserialization fails — adds the
deltas with int64 arithmetic, marshals and stores the result.  The
deferred `Unlock` of the source runs on each of the three exit paths, so
every returned state has passed through `stUnlock`. -/
def CaddyUpstream.Consume (u : CaddyUpstream) (st : StorageState) (k : Str)
    (nr nw : Int) : Except Unit Unit × StorageState :=
  let key := u.pfx ++ canonicalize k
  let st1 := stLock st key
  match stLoad st1 key with
  | .error e => (.error e, stUnlock st1 key)
  | .ok b =>
      match unmarshalTraffic b with
      | .error e => (.error e, stUnlock st1 key)
      | .ok t =>
          let t2 : Traffic := ⟨wrap64 (t.up + nr), wrap64 (t.down + nw)⟩
          (.ok (), stUnlock (stStore st1 key (.traffic t2)) key)

/-- rangeBody is the loop body of the persistent `Range`: load the key, then
deserialize, and on either failure log and skip (produce nothing),
otherwise visit the record under the key with the namespace stripped. -/
def rangeBody (u : CaddyUpstream) (st : StorageState) (k : Str) :
    Option (Str × Int × Int) :=
  match stLoad st k with
  | .error _ => none
  | .ok b =>
      match unmarshalTraffic b with
      | .error _ => none
      | .ok t => some (strTrimPfx u.pfx k, t.up, t.down)

/-- CaddyUpstream.Range lists the keys under the namespace and runs
`rangeBody` on each — logging and skipping a key when its load or
deserialization fails; the Go callback is modelled by returning the list
of visited triples, and a failing `List` call makes the whole scan visit
nothing. -/
def CaddyUpstream.Range (u : CaddyUpstream) (st : StorageState) :
    List (Str × Int × Int) :=
  match stList st u.pfx with
  | .error _ => []
  | .ok keys => keys.filterMap (rangeBody u st)

/-- rangeVisit states what one storage entry contributes to a `Range` scan: an
entry under the namespace whose bytes deserialize is visited with its
stored counters and the namespace stripped from its key, every other entry
is skipped. -/
def rangeVisit (u : CaddyUpstream) (p : Str × StorCell) :
    Option (Str × Int × Int) :=
  if u.pfx.isPrefixOf p.1 then
    match p.2 with
    | .val (.traffic t) => some (p.1.drop u.pfx.length, t.up, t.down)
    | _ => none
  else none

/-- testSecret is the byte string `Test1234`, the raw secret quoted by the
source comments. -/
def testSecret : Str := [84, 101, 115, 116, 49, 50, 51, 52]

/-- MOp enumerates the state-changing operations of the in-memory backend. -/
inductive MOp where
  | addKey (k : Str)
  | delKey (k : Str)
  | consume (k : Str) (nr nw : Int)
deriving DecidableEq

/-- MOp.nonneg: the consume deltas of the operation are non-negative. -/
def MOp.nonneg : MOp → Prop
  | .consume _ nr nw => 0 ≤ nr ∧ 0 ≤ nw
  | _ => True

/-- MOp.noOverflow: the int64 additions the operation performs stay in range. -/
def MOp.noOverflow (u : MemoryUpstream) : MOp → Prop
  | .consume k nr nw => ∀ m, u.mm = some m →
      -2 ^ 63 ≤ ((alLookup m (canonicalize k)).getD ⟨0, 0⟩).up + nr ∧
      ((alLookup m (canonicalize k)).getD ⟨0, 0⟩).up + nr < 2 ^ 63 ∧
      -2 ^ 63 ≤ ((alLookup m (canonicalize k)).getD ⟨0, 0⟩).down + nw ∧
      ((alLookup m (canonicalize k)).getD ⟨0, 0⟩).down + nw < 2 ^ 63
  | _ => True

/-- mstep runs one in-memory operation (`none` is a panic). -/
def mstep (u : MemoryUpstream) : MOp → Option MemoryUpstream
  | .addKey k => u.AddKey k
  | .delKey k => some (u.DelKey k)
  | .consume k nr nw => u.Consume k nr nw

/-- mLookup observes the record of a canonical key in the in-memory state. -/
def mLookup (u : MemoryUpstream) (ck : Str) : Option Traffic :=
  u.mm.bind fun m => alLookup m ck

/-- COp enumerates the state-changing operations of the persistent backend. -/
inductive COp where
  | addKey (k : Str)
  | delKey (k : Str)
  | consume (k : Str) (nr nw : Int)
deriving DecidableEq

/-- COp.nonneg: the consume deltas of the operation are non-negative. -/
def COp.nonneg : COp → Prop
  | .consume _ nr nw => 0 ≤ nr ∧ 0 ≤ nw
  | _ => True

/-- cLook observes the traffic record stored under a canonical key. -/
def cLook (st : StorageState) (ck : Str) : Option Traffic :=
  match alLookup st.data ck with
  | some (.val (.traffic t)) => some t
  | _ => none

/-- COp.noOverflow: the int64 additions the operation performs stay in range. -/
def COp.noOverflow (u : CaddyUpstream) (st : StorageState) : COp → Prop
  | .consume k nr nw => ∀ t, cLook st (u.pfx ++ canonicalize k) = some t →
      -2 ^ 63 ≤ t.up + nr ∧ t.up + nr < 2 ^ 63 ∧
      -2 ^ 63 ≤ t.down + nw ∧ t.down + nw < 2 ^ 63
  | _ => True

/-- cstep runs one persistent operation and keeps the resulting storage. -/
def cstep (u : CaddyUpstream) (st : StorageState) : COp → StorageState
  | .addKey k => (u.AddKey st k).2
  | .delKey k => (u.DelKey st k).2
  | .consume k nr nw => (u.Consume st k nr nw).2

/-! Theorems: library lemmas about the embedding, followed by the claim
theorems, their witnesses and counterexamples. -/

/-- b64encode_length: standard base64 produces 4 output bytes for every
started group of 3 input bytes. -/
theorem b64encode_length : ∀ s : Str, (b64encode s).length = 4 * ((s.length + 2) / 3)
  | [] => by simp [b64encode]
  | [_] => by simp [b64encode]
  | [_, _] => by simp [b64encode]
  | _ :: _ :: _ :: rest => by
      simp only [b64encode, List.length_cons, b64encode_length rest]
      omega

/-- GenKey_length: a derived key always has `HeaderLen` (56) bytes. -/
theorem GenKey_length (s : Str) : (GenKey s).length = 56 := by
  simp [GenKey, HeaderLen]

/-- alLookup_erase_self: an erased key is no longer found. -/
theorem alLookup_erase_self {α : Type} (m : List (Str × α)) (k : Str) :
    alLookup (alErase m k) k = none := by
  induction m with
  | nil => rfl
  | cons p rest ih =>
      by_cases h : p.1 = k
      · simp [alErase, h, ih]
      · simp [alErase, alLookup, h, ih]

/-- alLookup_erase_ne: erasing one key leaves every other key unchanged. -/
theorem alLookup_erase_ne {α : Type} (m : List (Str × α)) (k k' : Str) (h : k' ≠ k) :
    alLookup (alErase m k) k' = alLookup m k' := by
  have hk : ¬(k = k') := fun he => h he.symm
  induction m with
  | nil => rfl
  | cons p rest ih =>
      by_cases hp : p.1 = k
      · have hp' : p.1 ≠ k' := fun he => h (he ▸ hp)
        simp [alErase, alLookup, hp, hp', hk, ih]
      · by_cases hq : p.1 = k'
        · simp [alErase, alLookup, hp, hq, h]
        · simp [alErase, alLookup, hp, hq, ih]

/-- alLookup_insert_self: an inserted key is found with its new value. -/
theorem alLookup_insert_self {α : Type} (m : List (Str × α)) (k : Str) (v : α) :
    alLookup (alInsert m k v) k = some v := by
  simp [alInsert, alLookup]

/-- alLookup_insert_ne: inserting one key leaves every other key unchanged. -/
theorem alLookup_insert_ne {α : Type} (m : List (Str × α)) (k k' : Str) (v : α)
    (h : k' ≠ k) : alLookup (alInsert m k v) k' = alLookup m k' := by
  have hk : ¬(k = k') := fun he => h he.symm
  simp [alInsert, alLookup, hk, alLookup_erase_ne m k k' h]

/-- alErase_erase: erasing a key twice equals erasing it once. -/
theorem alErase_erase {α : Type} (m : List (Str × α)) (k : Str) :
    alErase (alErase m k) k = alErase m k := by
  induction m with
  | nil => rfl
  | cons p rest ih =>
      by_cases hp : p.1 = k
      · simp [alErase, hp, ih]
      · simp [alErase, hp, ih]

/-- al_lookup_of_mem: in a list with no duplicate keys, every stored pair is
found by lookup. -/
theorem al_lookup_of_mem {α : Type} (m : List (Str × α))
    (hnd : (m.map Prod.fst).Nodup) (p : Str × α) (hp : p ∈ m) :
    alLookup m p.1 = some p.2 := by
  induction m with
  | nil => cases hp
  | cons q rest ih =>
      simp only [List.map_cons, List.nodup_cons] at hnd
      rcases List.mem_cons.mp hp with hq | hq
      · subst hq; simp [alLookup]
      · have hne : q.1 ≠ p.1 := by
          intro he
          exact hnd.1 (he ▸ List.mem_map_of_mem Prod.fst hq)
        simp [alLookup, hne, ih hnd.2 hq]

/-- wrap64_eq_self: int64 addition that stays in range does not wrap. -/
theorem wrap64_eq_self (x : Int) (h1 : -2 ^ 63 ≤ x) (h2 : x < 2 ^ 63) :
    wrap64 x = x := by
  have e3 : (2 : Int) ^ 63 = 9223372036854775808 := by norm_num
  have e4 : (2 : Int) ^ 64 = 18446744073709551616 := by norm_num
  unfold wrap64
  rw [e3, e4] at *
  rw [Int.emod_eq_of_lt (by omega) (by omega)]
  omega

/-- canonicalize_eq_b64: an input of non-canonical length is base64 encoded. -/
theorem canonicalize_eq_b64 (k : Str) (h : k.length ≠ 76) :
    canonicalize k = b64encode k := by
  simp [canonicalize, AuthLen, h]

/-- canonicalize_eq_self: an input of canonical length is taken as is. -/
theorem canonicalize_eq_self (k : Str) (h : k.length = 76) : canonicalize k = k := by
  simp [canonicalize, AuthLen, h]

/-- b64_genkey_length: the base64 form of a 56-byte derived key has 76 bytes,
which is exactly the `AuthLen` constant of the source. -/
theorem b64_genkey_length (s : Str) : (b64encode (GenKey s)).length = 76 := by
  rw [b64encode_length, GenKey_length]

/-- canonicalize_genkey: a derived key (56 bytes) is base64 encoded by the
normalization. -/
theorem canonicalize_genkey (s : Str) :
    canonicalize (GenKey s) = b64encode (GenKey s) :=
  canonicalize_eq_b64 _ (by rw [GenKey_length]; omega)

/-- canonicalize_b64_genkey: the base64 form of a derived key is already
canonical and passes through the normalization unchanged. -/
theorem canonicalize_b64_genkey (s : Str) :
    canonicalize (b64encode (GenKey s)) = b64encode (GenKey s) :=
  canonicalize_eq_self _ (b64_genkey_length s)

/-- b64_ne_of_length76: base64 encoding a 76-byte input yields 104 bytes, so
the encoded form of a canonical-length key never equals the key itself. -/
theorem b64_ne_of_length76 (k : Str) (h : k.length = 76) : b64encode k ≠ k := by
  intro he
  have hl := b64encode_length k
  rw [he, h] at hl
  omega

/-- filter_ne_self: filtering out an absent element changes nothing. -/
theorem filter_ne_self (l : List Str) (k : Str) (h : k ∉ l) :
    (l.filter fun x => decide (x ≠ k)) = l := by
  induction l with
  | nil => rfl
  | cons a rest ih =>
      have ha : a ≠ k := fun he => h (he ▸ List.mem_cons_self a rest)
      have hr : k ∉ rest := fun hm => h (List.mem_cons_of_mem a hm)
      rw [List.filter_cons, if_pos (by simp [ha]), ih hr]

/-- unlock_lock: releasing a lock acquired on a previously unheld key restores
the storage state exactly. -/
theorem unlock_lock (st : StorageState) (k : Str) (h : k ∉ st.locks) :
    stUnlock (stLock st k) k = st := by
  unfold stUnlock stLock
  rw [List.filter_cons, if_neg (by simp), filter_ne_self st.locks k h]

/-- unlock_store_lock: on the success path of `Consume`, lock, store and
unlock leave only the store visible. -/
theorem unlock_store_lock (st : StorageState) (k : Str) (b : StorBytes)
    (h : k ∉ st.locks) :
    stUnlock (stStore (stLock st k) k b) k = stStore st k b := by
  unfold stUnlock stLock stStore
  rw [List.filter_cons, if_neg (by simp), filter_ne_self st.locks k h]

/-- C2: the module constructor of `MemoryUpstream` leaves the map `mm` nil
(`fresh`); on such a value `AddKey` and `Consume` write to the nil map and
panic (modelled by `none`), while `DelKey`, `Validate` and `Range` complete
normally, and no operation ever allocates the map (`DelKey` hands back the
state with the map still nil). -/
theorem C2_theorem (k : Str) (nr nw : Int) :
    MemoryUpstream.fresh.AddKey k = none ∧
    MemoryUpstream.fresh.Consume k nr nw = none ∧
    MemoryUpstream.fresh.DelKey k = MemoryUpstream.fresh ∧
    MemoryUpstream.fresh.Validate k = false ∧
    MemoryUpstream.fresh.Range = [] :=
  ⟨rfl, rfl, rfl, rfl, rfl⟩

/-- C2 witness: the fresh backend at a concrete key. -/
theorem C2_witness :
    MemoryUpstream.fresh.AddKey [1] = none ∧
    MemoryUpstream.fresh.Consume [1] 3 4 = none ∧
    MemoryUpstream.fresh.DelKey [1] = MemoryUpstream.fresh ∧
    MemoryUpstream.fresh.Validate [1] = false ∧
    MemoryUpstream.fresh.Range = [] :=
  C2_theorem [1] 3 4

/-- C6: the in-memory `AddKey` base64-encodes its input and unconditionally
stores a zeroed record under the encoded key, overwriting any counters an
existing entry had, leaves every other key untouched, and never fails (the
Go error result is always nil, so on a non-nil map it returns a new
state). -/
theorem C6_theorem (m : Mm) (k : Str) :
    ∃ m2, MemoryUpstream.AddKey ⟨some m⟩ k = some ⟨some m2⟩ ∧
      alLookup m2 (b64encode k) = some ⟨0, 0⟩ ∧
      ∀ k2, k2 ≠ b64encode k → alLookup m2 k2 = alLookup m k2 := by
  refine ⟨alInsert m (b64encode k) ⟨0, 0⟩, rfl, alLookup_insert_self m _ _, ?_⟩
  intro k2 h2
  exact alLookup_insert_ne m (b64encode k) k2 ⟨0, 0⟩ h2

/-- C6 witness: overwriting a concrete entry that had accumulated counters. -/
theorem C6_witness :
    ∃ m2, MemoryUpstream.AddKey ⟨some [(b64encode [7], ⟨5, 6⟩)]⟩ [7] = some ⟨some m2⟩ ∧
      alLookup m2 (b64encode [7]) = some ⟨0, 0⟩ ∧
      ∀ k2, k2 ≠ b64encode [7] → alLookup m2 k2 = alLookup [(b64encode [7], ⟨5, 6⟩)] k2 :=
  C6_theorem [(b64encode [7], ⟨5, 6⟩)] [7]

/-- C3: the in-memory `Consume` reads the record under the normalized key
(the zero record if absent), adds the deltas with int64 arithmetic, stores
the sum back and reports no error, leaving every other key untouched; on
an existing zeroed entry, `Consume(k, 10, 20)` then `Consume(k, 5, 0)`
leaves up = 15 and down = 20. -/
theorem C3_theorem (m : Mm) (k : Str) (nr nw : Int) :
    (∃ m2, MemoryUpstream.Consume ⟨some m⟩ k nr nw = some ⟨some m2⟩ ∧
      alLookup m2 (canonicalize k) =
        some ⟨wrap64 (((alLookup m (canonicalize k)).getD ⟨0, 0⟩).up + nr),
              wrap64 (((alLookup m (canonicalize k)).getD ⟨0, 0⟩).down + nw)⟩ ∧
      ∀ k2, k2 ≠ canonicalize k → alLookup m2 k2 = alLookup m k2) ∧
    (alLookup m (canonicalize k) = some ⟨0, 0⟩ →
      ∀ u2, (MemoryUpstream.Consume ⟨some m⟩ k 10 20).bind
          (fun u1 => u1.Consume k 5 0) = some u2 →
        ∃ m2, u2.mm = some m2 ∧ alLookup m2 (canonicalize k) = some ⟨15, 20⟩) := by
  constructor
  · refine ⟨_, rfl, alLookup_insert_self m _ _, ?_⟩
    intro k2 h2
    exact alLookup_insert_ne m (canonicalize k) k2 _ h2
  · intro h0 u2 h2
    simp only [MemoryUpstream.Consume, Option.bind_some, Option.some_bind] at h2
    rw [h0] at h2
    simp only [Option.getD_some] at h2
    rw [alLookup_insert_self] at h2
    have e10 : wrap64 ((0 : Int) + 10) = 10 := by
      rw [wrap64_eq_self] <;> norm_num
    have e20 : wrap64 ((0 : Int) + 20) = 20 := by
      rw [wrap64_eq_self] <;> norm_num
    rw [e10, e20] at h2
    simp only [Option.getD_some] at h2
    have e15 : wrap64 ((10 : Int) + 5) = 15 := by
      rw [wrap64_eq_self] <;> norm_num
    have e25 : wrap64 ((20 : Int) + 0) = 20 := by
      rw [wrap64_eq_self] <;> norm_num
    rw [e15, e25] at h2
    injection h2 with h3
    refine ⟨alInsert (alInsert m (canonicalize k) ⟨10, 20⟩) (canonicalize k) ⟨15, 20⟩,
      ?_, alLookup_insert_self _ _ _⟩
    rw [← h3]

/-- C3 witness: the two consumes on a concretely stored zeroed entry. -/
theorem C3_witness :
    alLookup [(b64encode [9], (⟨0, 0⟩ : Traffic))] (canonicalize [9]) = some ⟨0, 0⟩ ∧
    ∃ m2, (⟨some [(b64encode [9], ⟨15, 20⟩)]⟩ : MemoryUpstream).mm = some m2 ∧
      alLookup m2 (canonicalize [9]) = some ⟨15, 20⟩ := by
  have h0 : alLookup [(b64encode [9], (⟨0, 0⟩ : Traffic))] (canonicalize [9]) =
      some ⟨0, 0⟩ := by decide
  exact ⟨h0, (C3_theorem [(b64encode [9], ⟨0, 0⟩)] [9] 0 0).2 h0
    ⟨some [(b64encode [9], ⟨15, 20⟩)]⟩ (by decide)⟩

/-- C10: an input of exactly `AuthLen` (76) bytes is stored by `AddKey` under
its base64 encoding (`AddKey` encodes unconditionally), while `Validate`
and `Consume` use the input unchanged; hence on either backend `AddKey(k)`
followed by `Validate(k)` returns false when `k` was not otherwise
present, and `Consume(k, ...)` leaves the entry `AddKey(k)` created
untouched. -/
theorem C10_theorem (k : Str) (h76 : k.length = 76) (m : Mm) (u : CaddyUpstream)
    (st : StorageState) (hm : alLookup m k = none)
    (hst : alLookup st.data (u.pfx ++ k) = none) :
    (∃ m1, MemoryUpstream.AddKey ⟨some m⟩ k = some ⟨some m1⟩ ∧
      MemoryUpstream.Validate ⟨some m1⟩ k = false ∧
      ∀ nr nw, ∃ m2, MemoryUpstream.Consume ⟨some m1⟩ k nr nw = some ⟨some m2⟩ ∧
        alLookup m2 (b64encode k) = some ⟨0, 0⟩) ∧
    CaddyUpstream.Validate u (u.AddKey st k).2 k = false ∧
    (∀ nr nw, alLookup ((u.Consume (u.AddKey st k).2 k nr nw).2).data
        (u.pfx ++ b64encode k) =
      alLookup ((u.AddKey st k).2).data (u.pfx ++ b64encode k)) := by
  have hne : b64encode k ≠ k := b64_ne_of_length76 k h76
  have hne2 : k ≠ b64encode k := fun he => hne he.symm
  have hc : canonicalize k = k := canonicalize_eq_self k h76
  have hpne : u.pfx ++ k ≠ u.pfx ++ b64encode k :=
    fun he => hne2 (List.append_cancel_left he)
  -- after AddKey, the persistent entry under the unencoded key is still absent
  have haA : alLookup ((u.AddKey st k).2).data (u.pfx ++ k) = none := by
    by_cases hex : stExists st (u.pfx ++ b64encode k) = true
    · simp only [CaddyUpstream.AddKey, hex, if_pos, if_true]
      exact hst
    · simp only [CaddyUpstream.AddKey, hex, if_false, Bool.not_eq_true] at *
      simp only [hex, Bool.false_eq_true, if_false, stStore]
      rw [alLookup_insert_ne _ _ _ _ hpne]
      exact hst
  refine ⟨?_, ?_, ?_⟩
  · refine ⟨alInsert m (b64encode k) ⟨0, 0⟩, rfl, ?_, ?_⟩
    · simp only [MemoryUpstream.Validate, hc]
      rw [alLookup_insert_ne _ _ _ _ hne2, hm]
      rfl
    · intro nr nw
      refine ⟨_, rfl, ?_⟩
      rw [hc, alLookup_insert_ne _ _ _ _ hne, alLookup_insert_self]
  · simp only [CaddyUpstream.Validate, hc, stExists, haA]
    rfl
  · intro nr nw
    have hload : stLoad (stLock ((u.AddKey st k).2) (u.pfx ++ k)) (u.pfx ++ k) =
        .error () := by
      simp only [stLoad, stLock, haA]
    simp only [CaddyUpstream.Consume, hc, hload]
    rfl

/-- C10 witness: a concrete 76-byte key on empty backends. -/
theorem C10_witness :
    (List.replicate 76 65 : Str).length = 76 ∧
    ((∃ m1, MemoryUpstream.AddKey ⟨some []⟩ (List.replicate 76 65) = some ⟨some m1⟩ ∧
      MemoryUpstream.Validate ⟨some m1⟩ (List.replicate 76 65) = false ∧
      ∀ nr nw, ∃ m2, MemoryUpstream.Consume ⟨some m1⟩ (List.replicate 76 65) nr nw =
          some ⟨some m2⟩ ∧
        alLookup m2 (b64encode (List.replicate 76 65)) = some ⟨0, 0⟩) ∧
    CaddyUpstream.Validate ⟨trojanNs⟩
      ((CaddyUpstream.AddKey ⟨trojanNs⟩ ⟨[], [], false⟩ (List.replicate 76 65)).2)
      (List.replicate 76 65) = false ∧
    (∀ nr nw, alLookup ((CaddyUpstream.Consume ⟨trojanNs⟩
          ((CaddyUpstream.AddKey ⟨trojanNs⟩ ⟨[], [], false⟩ (List.replicate 76 65)).2)
          (List.replicate 76 65) nr nw).2).data
        (trojanNs ++ b64encode (List.replicate 76 65)) =
      alLookup (((CaddyUpstream.AddKey ⟨trojanNs⟩ ⟨[], [], false⟩
          (List.replicate 76 65)).2)).data
        (trojanNs ++ b64encode (List.replicate 76 65)))) :=
  ⟨by decide,
    C10_theorem (List.replicate 76 65) (by decide) [] ⟨trojanNs⟩ ⟨[], [], false⟩ rfl rfl⟩

/-- C1 counterexample: after a successful `Add(s)` on an empty in-memory or
persistent backend, `Validate(s)` with the raw secret itself returns false
(the claim says both input forms return true), because `Validate` only
base64 encodes a non-canonical input and never derives it, so
`canonicalize(s) ≠ canonicalize(derive(s))`. -/
theorem C1_counterexample :
    (MemoryUpstream.Add ⟨some []⟩ testSecret).isSome = true ∧
    ((MemoryUpstream.Add ⟨some []⟩ testSecret).getD MemoryUpstream.fresh).Validate
      testSecret = false ∧
    (CaddyUpstream.Add ⟨trojanNs⟩ ⟨[], [], false⟩ testSecret).1 = .ok () ∧
    CaddyUpstream.Validate ⟨trojanNs⟩
      (CaddyUpstream.Add ⟨trojanNs⟩ ⟨[], [], false⟩ testSecret).2 testSecret = false ∧
    canonicalize testSecret ≠ canonicalize (GenKey testSecret) :=
  ⟨rfl, by decide, rfl, by decide, by decide⟩

/-- C1 as amended: after `Add(s)` succeeds, `Validate` returns true when
called with the derived key `GenKey s` or with its canonical base64 form,
on both backends; the invariant that holds on the code is
`canonicalize(derive(s)) = canonicalize(b64(derive(s)))` — the derived key
and the canonical form reach the same stored entry, while the raw secret
itself does not (see the counterexample). -/
theorem C1_theorem (s : Str) (m : Mm) (u : CaddyUpstream) (st : StorageState) :
    (∀ m1, MemoryUpstream.Add ⟨some m⟩ s = some ⟨some m1⟩ →
      MemoryUpstream.Validate ⟨some m1⟩ (GenKey s) = true ∧
      MemoryUpstream.Validate ⟨some m1⟩ (b64encode (GenKey s)) = true) ∧
    ((CaddyUpstream.Add u st s).1 = .ok () ∧
      CaddyUpstream.Validate u (CaddyUpstream.Add u st s).2 (GenKey s) = true ∧
      CaddyUpstream.Validate u (CaddyUpstream.Add u st s).2
        (b64encode (GenKey s)) = true) ∧
    canonicalize (GenKey s) = canonicalize (b64encode (GenKey s)) := by
  refine ⟨?_, ?_, by rw [canonicalize_genkey, canonicalize_b64_genkey]⟩
  · intro m1 h1
    simp only [MemoryUpstream.Add, MemoryUpstream.AddKey] at h1
    injection h1 with h1
    injection h1 with h1
    injection h1 with h1
    subst h1
    constructor
    · simp only [MemoryUpstream.Validate, canonicalize_genkey, alLookup_insert_self]
      rfl
    · simp only [MemoryUpstream.Validate, canonicalize_b64_genkey, alLookup_insert_self]
      rfl
  · have hval : ∀ st2 : StorageState,
        stExists st2 (u.pfx ++ b64encode (GenKey s)) = true →
        CaddyUpstream.Validate u st2 (GenKey s) = true ∧
        CaddyUpstream.Validate u st2 (b64encode (GenKey s)) = true := by
      intro st2 h2
      constructor
      · show stExists st2 (u.pfx ++ canonicalize (GenKey s)) = true
        rw [canonicalize_genkey]
        exact h2
      · show stExists st2 (u.pfx ++ canonicalize (b64encode (GenKey s))) = true
        rw [canonicalize_b64_genkey]
        exact h2
    by_cases hex : stExists st (u.pfx ++ b64encode (GenKey s)) = true
    · have h2 : CaddyUpstream.Add u st s = (.ok (), st) := by
        simp [CaddyUpstream.Add, CaddyUpstream.AddKey, hex]
      rw [h2]
      exact ⟨rfl, hval st hex⟩
    · simp only [Bool.not_eq_true] at hex
      have h2 : CaddyUpstream.Add u st s =
          (.ok (), stStore st (u.pfx ++ b64encode (GenKey s)) (.traffic ⟨0, 0⟩)) := by
        simp [CaddyUpstream.Add, CaddyUpstream.AddKey, hex]
      rw [h2]
      refine ⟨rfl, hval _ ?_⟩
      simp [stExists, stStore, alLookup_insert_self]

/-- C1 witness: the amended statement at a concrete secret on empty
backends. -/
theorem C1_witness :
    MemoryUpstream.Validate ⟨some (alInsert [] (b64encode (GenKey testSecret)) ⟨0, 0⟩)⟩
      (GenKey testSecret) = true ∧
    MemoryUpstream.Validate ⟨some (alInsert [] (b64encode (GenKey testSecret)) ⟨0, 0⟩)⟩
      (b64encode (GenKey testSecret)) = true :=
  (C1_theorem testSecret [] ⟨trojanNs⟩ ⟨[], [], false⟩).1
    (alInsert [] (b64encode (GenKey testSecret)) ⟨0, 0⟩) rfl

/-- stLoad_lock: acquiring a lock does not change what `Load` sees. -/
theorem stLoad_lock (st : StorageState) (k2 k : Str) :
    stLoad (stLock st k2) k = stLoad st k := rfl

/-- C7 counterexample: on the in-memory backend, a raw-secret `Consume`
creates an entry under `canonicalize(s)`, while `Del(s)` removes
`canonicalize(derive(s))`; after `Consume(s, 1, 1)` and then `Del(s)`,
`Validate` on the raw secret still returns true, so the claim that `Del`
followed by `Validate` on that secret returns false fails on this input. -/
theorem C7_counterexample :
    (MemoryUpstream.Consume ⟨some []⟩ testSecret 1 1).isSome = true ∧
    (((MemoryUpstream.Consume ⟨some []⟩ testSecret 1 1).getD
        MemoryUpstream.fresh).Del testSecret).Validate testSecret = true :=
  ⟨rfl, by decide⟩

/-- C7 as amended: deletion is idempotent and absence is never an error on
both backends, and `Del` followed by `Validate` on the secret's derived
key returns false; `Validate` on the raw secret itself can stay true when
an entry under the raw secret's own encoding exists (see the
counterexample).  In detail: in-memory `Del` then `Validate(derive s)` is
false in every state and a second `Del` is a no-op; the persistent
`DelKey` returns success without calling `Delete` when the key is absent;
the persistent `Del` succeeds, afterwards `Validate(derive s)` is false
and a second `Del` is a no-op success. -/
theorem C7_theorem (m : Mm) (s k : Str) (u : CaddyUpstream) (st : StorageState) :
    ((⟨some m⟩ : MemoryUpstream).Del s).Validate (GenKey s) = false ∧
    ((⟨some m⟩ : MemoryUpstream).Del s).Del s = (⟨some m⟩ : MemoryUpstream).Del s ∧
    (stExists st (u.pfx ++ b64encode k) = false → u.DelKey st k = (.ok (), st)) ∧
    (u.Del st s).1 = .ok () ∧
    CaddyUpstream.Validate u (u.Del st s).2 (GenKey s) = false ∧
    u.Del (u.Del st s).2 s = (.ok (), (u.Del st s).2) := by
  refine ⟨?_, ?_, ?_, ?_, ?_, ?_⟩
  · simp [MemoryUpstream.Del, MemoryUpstream.DelKey, MemoryUpstream.Validate,
      canonicalize_genkey, alLookup_erase_self]
  · simp [MemoryUpstream.Del, MemoryUpstream.DelKey, alErase_erase]
  · intro h
    simp [CaddyUpstream.DelKey, h]
  · by_cases hex : stExists st (u.pfx ++ b64encode (GenKey s)) = true
    · simp [CaddyUpstream.Del, CaddyUpstream.DelKey, hex]
    · simp only [Bool.not_eq_true] at hex
      simp [CaddyUpstream.Del, CaddyUpstream.DelKey, hex]
  · by_cases hex : stExists st (u.pfx ++ b64encode (GenKey s)) = true
    · have h2 : u.Del st s =
          (.ok (), stDelete st (u.pfx ++ b64encode (GenKey s))) := by
        simp [CaddyUpstream.Del, CaddyUpstream.DelKey, hex]
      rw [h2]
      show stExists (stDelete st (u.pfx ++ b64encode (GenKey s)))
        (u.pfx ++ canonicalize (GenKey s)) = false
      rw [canonicalize_genkey]
      simp [stExists, stDelete, alLookup_erase_self]
    · simp only [Bool.not_eq_true] at hex
      have h2 : u.Del st s = (.ok (), st) := by
        simp [CaddyUpstream.Del, CaddyUpstream.DelKey, hex]
      rw [h2]
      show stExists st (u.pfx ++ canonicalize (GenKey s)) = false
      rw [canonicalize_genkey]
      exact hex
  · by_cases hex : stExists st (u.pfx ++ b64encode (GenKey s)) = true
    · have h2 : u.Del st s =
          (.ok (), stDelete st (u.pfx ++ b64encode (GenKey s))) := by
        simp [CaddyUpstream.Del, CaddyUpstream.DelKey, hex]
      rw [h2]
      simp [CaddyUpstream.Del, CaddyUpstream.DelKey, stExists, stDelete,
        alLookup_erase_self]
    · simp only [Bool.not_eq_true] at hex
      have h2 : u.Del st s = (.ok (), st) := by
        simp [CaddyUpstream.Del, CaddyUpstream.DelKey, hex]
      rw [h2]
      simp [CaddyUpstream.Del, CaddyUpstream.DelKey, hex]

/-- C7 witness: the amended statement at concrete inputs, with the absent-key
deletion hypothesis discharged on an empty storage. -/
theorem C7_witness :
    ((⟨some []⟩ : MemoryUpstream).Del testSecret).Validate (GenKey testSecret) = false ∧
    CaddyUpstream.DelKey ⟨trojanNs⟩ ⟨[], [], false⟩ [5] =
      (.ok (), (⟨[], [], false⟩ : StorageState)) ∧
    CaddyUpstream.Validate ⟨trojanNs⟩
      (CaddyUpstream.Del ⟨trojanNs⟩ ⟨[], [], false⟩ testSecret).2
      (GenKey testSecret) = false := by
  have h := C7_theorem [] testSecret [5] ⟨trojanNs⟩ ⟨[], [], false⟩
  exact ⟨h.1, h.2.2.1 rfl, h.2.2.2.2.1⟩

/-- C4: the persistent `Consume` releases the per-key distributed lock on
every exit path, and on every failing path — the load fails (in
particular the entry is absent: no zero record is synthesized) or the
loaded bytes fail to deserialize — it returns an error and stores
nothing. -/
theorem C4_theorem (u : CaddyUpstream) (st : StorageState) (k : Str) (nr nw : Int)
    (hlk : (u.pfx ++ canonicalize k) ∉ st.locks) :
    ((u.Consume st k nr nw).2).locks = st.locks ∧
    (stLoad st (u.pfx ++ canonicalize k) = .error () →
      (u.Consume st k nr nw).1 = .error () ∧
      ((u.Consume st k nr nw).2).data = st.data) ∧
    (∀ b, stLoad st (u.pfx ++ canonicalize k) = .ok b →
      unmarshalTraffic b = .error () →
      (u.Consume st k nr nw).1 = .error () ∧
      ((u.Consume st k nr nw).2).data = st.data) ∧
    (alLookup st.data (u.pfx ++ canonicalize k) = none →
      (u.Consume st k nr nw).1 = .error () ∧
      ((u.Consume st k nr nw).2).data = st.data) := by
  cases hL : stLoad st (u.pfx ++ canonicalize k) with
  | error e =>
      have hC : u.Consume st k nr nw = (.error (),
          stUnlock (stLock st (u.pfx ++ canonicalize k)) (u.pfx ++ canonicalize k)) := by
        simp only [CaddyUpstream.Consume, stLoad_lock, hL]
      rw [hC, unlock_lock st _ hlk]
      exact ⟨rfl, fun _ => ⟨rfl, rfl⟩, fun _ _ _ => ⟨rfl, rfl⟩, fun _ => ⟨rfl, rfl⟩⟩
  | ok b =>
      cases b with
      | corrupt =>
          have hC : u.Consume st k nr nw = (.error (),
              stUnlock (stLock st (u.pfx ++ canonicalize k))
                (u.pfx ++ canonicalize k)) := by
            simp only [CaddyUpstream.Consume, stLoad_lock, hL, unmarshalTraffic]
          rw [hC, unlock_lock st _ hlk]
          refine ⟨rfl, fun h => ⟨rfl, rfl⟩, fun _ _ _ => ⟨rfl, rfl⟩, fun _ => ⟨rfl, rfl⟩⟩
      | traffic t =>
          have hC : u.Consume st k nr nw = (.ok (),
              stStore st (u.pfx ++ canonicalize k)
                (.traffic ⟨wrap64 (t.up + nr), wrap64 (t.down + nw)⟩)) := by
            simp only [CaddyUpstream.Consume, stLoad_lock, hL, unmarshalTraffic]
            rw [unlock_store_lock st _ _ hlk]
          rw [hC]
          refine ⟨rfl, ?_, ?_, ?_⟩
          · intro h
            exact absurd h (by simp)
          · intro b2 hb2 hu2
            injection hb2 with hb2
            rw [← hb2] at hu2
            exact absurd hu2 (by simp [unmarshalTraffic])
          · intro h
            simp only [stLoad, h] at hL
            exact absurd hL (by simp)

/-- C4 witness: a corrupt stored record under the consumed key makes the
persistent `Consume` fail, store nothing and release the lock. -/
theorem C4_witness :
    ((CaddyUpstream.Consume ⟨trojanNs⟩
        ⟨[(trojanNs ++ b64encode [3], .val .corrupt)], [], false⟩ [3] 1 2).2).locks =
      (⟨[(trojanNs ++ b64encode [3], .val .corrupt)], [], false⟩ : StorageState).locks ∧
    (CaddyUpstream.Consume ⟨trojanNs⟩
        ⟨[(trojanNs ++ b64encode [3], .val .corrupt)], [], false⟩ [3] 1 2).1 =
      .error () ∧
    ((CaddyUpstream.Consume ⟨trojanNs⟩
        ⟨[(trojanNs ++ b64encode [3], .val .corrupt)], [], false⟩ [3] 1 2).2).data =
      (⟨[(trojanNs ++ b64encode [3], .val .corrupt)], [], false⟩ : StorageState).data := by
  have h := C4_theorem ⟨trojanNs⟩
    ⟨[(trojanNs ++ b64encode [3], .val .corrupt)], [], false⟩ [3] 1 2 (by simp)
  have h2 := h.2.2.1 .corrupt rfl rfl
  exact ⟨h.1, h2.1, h2.2⟩

/-- C5: the persistent `AddKey` is idempotent and non-destructive: when the
prefixed canonical key exists it returns success without writing; when the
key is absent it stores a zeroed record; and `AddKey`, an intervening
`Consume`, then `AddKey` again leaves the accumulated counters intact. -/
theorem C5_theorem (u : CaddyUpstream) (st : StorageState) (k : Str) (nr nw : Int)
    (h76 : k.length ≠ 76) (habs : alLookup st.data (u.pfx ++ b64encode k) = none)
    (hlk : (u.pfx ++ b64encode k) ∉ st.locks) :
    (∀ st2 : StorageState, stExists st2 (u.pfx ++ b64encode k) = true →
      u.AddKey st2 k = (.ok (), st2)) ∧
    u.AddKey st k = (.ok (), stStore st (u.pfx ++ b64encode k) (.traffic ⟨0, 0⟩)) ∧
    (u.Consume (u.AddKey st k).2 k nr nw).1 = .ok () ∧
    u.AddKey (u.Consume (u.AddKey st k).2 k nr nw).2 k =
      (.ok (), (u.Consume (u.AddKey st k).2 k nr nw).2) ∧
    alLookup ((u.Consume (u.AddKey st k).2 k nr nw).2).data (u.pfx ++ b64encode k) =
      some (.val (.traffic ⟨wrap64 nr, wrap64 nw⟩)) := by
  have hCk : canonicalize k = b64encode k := canonicalize_eq_b64 k h76
  have hA : u.AddKey st k =
      (.ok (), stStore st (u.pfx ++ b64encode k) (.traffic ⟨0, 0⟩)) := by
    simp [CaddyUpstream.AddKey, stExists, habs]
  have hload : stLoad (stStore st (u.pfx ++ b64encode k) (.traffic ⟨0, 0⟩))
      (u.pfx ++ b64encode k) = .ok (.traffic ⟨0, 0⟩) := by
    simp [stLoad, stStore, alLookup_insert_self]
  have hlk2 : (u.pfx ++ b64encode k) ∉
      (stStore st (u.pfx ++ b64encode k) (.traffic ⟨0, 0⟩)).locks := hlk
  have hC : u.Consume (u.AddKey st k).2 k nr nw = (.ok (),
      stStore (stStore st (u.pfx ++ b64encode k) (.traffic ⟨0, 0⟩))
        (u.pfx ++ b64encode k) (.traffic ⟨wrap64 nr, wrap64 nw⟩)) := by
    rw [hA]
    simp only [CaddyUpstream.Consume, hCk, stLoad_lock, hload, unmarshalTraffic,
      zero_add]
    rw [unlock_store_lock _ _ _ hlk2]
  refine ⟨?_, hA, ?_, ?_, ?_⟩
  · intro st2 h2
    simp [CaddyUpstream.AddKey, h2]
  · rw [hC]
  · rw [hC]
    simp [CaddyUpstream.AddKey, stExists, stStore, alLookup_insert_self]
  · rw [hC]
    simp [stStore, alLookup_insert_self]

/-- C5 witness: the create-consume-recreate scenario on an empty storage at a
concrete key. -/
theorem C5_witness :
    (CaddyUpstream.Consume ⟨trojanNs⟩
        (CaddyUpstream.AddKey ⟨trojanNs⟩ ⟨[], [], false⟩ [4]).2 [4] 7 8).1 = .ok () ∧
    CaddyUpstream.AddKey ⟨trojanNs⟩
        (CaddyUpstream.Consume ⟨trojanNs⟩
          (CaddyUpstream.AddKey ⟨trojanNs⟩ ⟨[], [], false⟩ [4]).2 [4] 7 8).2 [4] =
      (.ok (), (CaddyUpstream.Consume ⟨trojanNs⟩
          (CaddyUpstream.AddKey ⟨trojanNs⟩ ⟨[], [], false⟩ [4]).2 [4] 7 8).2) ∧
    alLookup ((CaddyUpstream.Consume ⟨trojanNs⟩
        (CaddyUpstream.AddKey ⟨trojanNs⟩ ⟨[], [], false⟩ [4]).2 [4] 7 8).2).data
      (trojanNs ++ b64encode [4]) = some (.val (.traffic ⟨wrap64 7, wrap64 8⟩)) := by
  have h := C5_theorem ⟨trojanNs⟩ ⟨[], [], false⟩ [4] 7 8 (by decide) rfl (by simp)
  exact ⟨h.2.2.1, h.2.2.2.1, h.2.2.2.2⟩

/-- range_aux: scanning the listed keys and re-loading each one from storage
visits exactly the prefixed entries whose cell deserializes, in storage
order, provided every stored pair is found again by lookup. -/
theorem range_aux (u : CaddyUpstream) (st : StorageState) (e : List (Str × StorCell))
    (he : ∀ p ∈ e, alLookup st.data p.1 = some p.2) :
    ((e.map Prod.fst).filter fun k2 => u.pfx.isPrefixOf k2).filterMap (rangeBody u st) =
      e.filterMap (rangeVisit u) := by
  induction e with
  | nil => rfl
  | cons p rest ih =>
      obtain ⟨kk, cell⟩ := p
      have hp : alLookup st.data kk = some cell :=
        he (kk, cell) (List.mem_cons_self _ rest)
      have ih2 := ih fun q hq => he q (List.mem_cons_of_mem _ hq)
      rw [List.map_cons, List.filter_cons]
      by_cases hpf : u.pfx.isPrefixOf kk = true
      · rw [if_pos hpf]
        cases cell with
        | loadErr =>
            have hv : rangeVisit u (kk, .loadErr) = none := by
              unfold rangeVisit
              rw [if_pos hpf]
            have hb : rangeBody u st kk = none := by
              unfold rangeBody
              have hload : stLoad st kk = .error () := by simp only [stLoad, hp]
              rw [hload]
            simp only [List.filterMap_cons, hb, hv, ih2]
        | val b =>
            have hload : stLoad st kk = .ok b := by simp only [stLoad, hp]
            cases b with
            | corrupt =>
                have hv : rangeVisit u (kk, .val .corrupt) = none := by
                  unfold rangeVisit
                  rw [if_pos hpf]
                have hb : rangeBody u st kk = none := by
                  unfold rangeBody
                  rw [hload]
                  rfl
                simp only [List.filterMap_cons, hb, hv, ih2]
            | traffic t =>
                have hv : rangeVisit u (kk, .val (.traffic t)) =
                    some (kk.drop u.pfx.length, t.up, t.down) := by
                  unfold rangeVisit
                  rw [if_pos hpf]
                have hst2 : strTrimPfx u.pfx kk = kk.drop u.pfx.length := by
                  unfold strTrimPfx
                  rw [if_pos hpf]
                have hb : rangeBody u st kk =
                    some (kk.drop u.pfx.length, t.up, t.down) := by
                  unfold rangeBody
                  rw [hload, hst2]
                  rfl
                simp only [List.filterMap_cons, hb, hv, ih2]
      · rw [if_neg hpf]
        have hv : rangeVisit u (kk, cell) = none := by
          unfold rangeVisit
          rw [if_neg hpf]
        rw [List.filterMap_cons, hv, ih2]

/-- C8: the persistent `Range` lists the keys under the namespace and visits
exactly once (storage has no duplicate keys) every entry whose load and
deserialization succeed, with the stored up and down values and the
namespace stripped from the key (`rangeVisit` spells this out per entry);
entries whose cell fails to load or to deserialize are skipped without
aborting the scan. -/
theorem C8_theorem (u : CaddyUpstream) (st : StorageState)
    (hl : st.listErr = false) (hnd : (st.data.map Prod.fst).Nodup) :
    u.Range st = st.data.filterMap (rangeVisit u) := by
  have hlist : stList st u.pfx =
      .ok ((st.data.map Prod.fst).filter fun k2 => u.pfx.isPrefixOf k2) := by
    simp [stList, hl]
  simp only [CaddyUpstream.Range, hlist]
  exact range_aux u st st.data fun p hp => al_lookup_of_mem st.data hnd p hp

/-- C8 witness: a ledger with entries A maps to (1,2) and B maps to (3,4),
plus one corrupt and one unloadable entry, visits exactly A and B with
those values and stripped keys. -/
theorem C8_witness :
    CaddyUpstream.Range ⟨trojanNs⟩
      ⟨[(trojanNs ++ [65], .val (.traffic ⟨1, 2⟩)),
        (trojanNs ++ [66], .val (.traffic ⟨3, 4⟩)),
        (trojanNs ++ [67], .val .corrupt),
        (trojanNs ++ [68], .loadErr)], [], false⟩ =
      [([65], 1, 2), ([66], 3, 4)] := by
  rw [C8_theorem ⟨trojanNs⟩ _ rfl (by decide)]
  decide

/-- stLoad_ok_lookup: a successful load comes from a stored value cell. -/
theorem stLoad_ok_lookup (st : StorageState) (k : Str) (b : StorBytes)
    (h : stLoad st k = .ok b) : alLookup st.data k = some (.val b) := by
  unfold stLoad at h
  cases hl : alLookup st.data k with
  | none => rw [hl] at h; exact absurd h (by simp)
  | some c =>
      cases c with
      | loadErr => rw [hl] at h; exact absurd h (by simp)
      | val b2 => rw [hl] at h; injection h with h; rw [h]

/-- stExists_false_lookup: a key that does not exist is not found by lookup. -/
theorem stExists_false_lookup (st : StorageState) (k : Str)
    (h : stExists st k = false) : alLookup st.data k = none := by
  unfold stExists at h
  cases hl : alLookup st.data k with
  | none => rfl
  | some c => rw [hl] at h; exact absurd h (by simp)

/-- cLook_store_self: after storing a marshalled record the key holds it. -/
theorem cLook_store_self (st : StorageState) (k : Str) (t : Traffic) :
    cLook (stStore st k (.traffic t)) k = some t := by
  simp only [cLook, stStore, alLookup_insert_self]

/-- cLook_store_ne: storing one key leaves every other record unchanged. -/
theorem cLook_store_ne (st : StorageState) (k ck : Str) (b : StorBytes)
    (h : ck ≠ k) : cLook (stStore st k b) ck = cLook st ck := by
  simp only [cLook, stStore]
  rw [alLookup_insert_ne _ _ _ _ h]

/-- cLook_delete_self: a deleted key holds no record. -/
theorem cLook_delete_self (st : StorageState) (k : Str) :
    cLook (stDelete st k) k = none := by
  simp only [cLook, stDelete, alLookup_erase_self]

/-- cLook_delete_ne: deleting one key leaves every other record unchanged. -/
theorem cLook_delete_ne (st : StorageState) (k ck : Str) (h : ck ≠ k) :
    cLook (stDelete st k) ck = cLook st ck := by
  simp only [cLook, stDelete]
  rw [alLookup_erase_ne _ _ _ h]

/-- C9 counterexample: Go int64 addition wraps, so a non-negative delta can
decrease a counter: an in-memory entry at the maximum int64 value consumed
with delta 1 wraps to the minimum int64 value, which is smaller — the
counters are not monotonically non-decreasing as claimed. -/
theorem C9_counterexample :
    MOp.nonneg (MOp.consume [1] 1 0) ∧
    mLookup ⟨some [(b64encode [1], ⟨2 ^ 63 - 1, 0⟩)]⟩ (b64encode [1]) =
      some ⟨2 ^ 63 - 1, 0⟩ ∧
    mstep ⟨some [(b64encode [1], ⟨2 ^ 63 - 1, 0⟩)]⟩ (MOp.consume [1] 1 0) =
      some ⟨some [(b64encode [1], ⟨-2 ^ 63, 0⟩)]⟩ ∧
    mLookup ⟨some [(b64encode [1], ⟨-2 ^ 63, 0⟩)]⟩ (b64encode [1]) =
      some ⟨-2 ^ 63, 0⟩ ∧
    ¬((2 ^ 63 - 1 : Int) ≤ -2 ^ 63) :=
  ⟨⟨by decide, by decide⟩, by decide, by decide, by decide, by decide⟩

/-- C9 as amended: in every single step of any operation sequence whose
consume deltas are non-negative, and whose int64 additions do not overflow
(the wrap-around at 2^63 is the one way a non-negative delta can decrease
a counter, see the counterexample), the counters of an entry that exists
before and after the step never decrease — except that the in-memory
`AddKey` resets the entry it re-creates to zero; the persistent backend
never decreases them at all, since its `AddKey` is idempotent. -/
theorem C9_theorem :
    (∀ (op : MOp) (u u' : MemoryUpstream) (ck : Str) (t t' : Traffic),
      op.nonneg → op.noOverflow u → mstep u op = some u' →
      mLookup u ck = some t → mLookup u' ck = some t' →
      (t.up ≤ t'.up ∧ t.down ≤ t'.down) ∨
        ∃ k2, op = .addKey k2 ∧ t' = ⟨0, 0⟩) ∧
    (∀ (cop : COp) (u : CaddyUpstream) (st : StorageState) (ck : Str) (t t' : Traffic),
      cop.nonneg → cop.noOverflow u st →
      cLook st ck = some t → cLook (cstep u st cop) ck = some t' →
      t.up ≤ t'.up ∧ t.down ≤ t'.down) := by
  constructor
  · intro op u u' ck t t' hnn hov hstep ht ht'
    cases op with
    | addKey k2 =>
        cases hmm : u.mm with
        | none =>
            simp only [mstep, MemoryUpstream.AddKey, hmm] at hstep
            exact Option.noConfusion hstep
        | some m =>
            simp only [mstep, MemoryUpstream.AddKey, hmm] at hstep
            injection hstep with hstep
            subst hstep
            simp only [mLookup, hmm, Option.some_bind] at ht
            simp only [mLookup, Option.some_bind] at ht'
            by_cases hck : ck = b64encode k2
            · right
              refine ⟨k2, rfl, ?_⟩
              rw [hck, alLookup_insert_self] at ht'
              injection ht' with h
              exact h.symm
            · left
              rw [alLookup_insert_ne _ _ _ _ hck] at ht'
              injection ht.symm.trans ht' with h
              subst h
              exact ⟨le_refl _, le_refl _⟩
    | delKey k2 =>
        simp only [mstep] at hstep
        injection hstep with hstep
        cases hmm : u.mm with
        | none =>
            have hu : u.DelKey k2 = u := by
              simp only [MemoryUpstream.DelKey, hmm]
            rw [hu] at hstep
            subst hstep
            left
            injection ht.symm.trans ht' with h
            subst h
            exact ⟨le_refl _, le_refl _⟩
        | some m =>
            subst hstep
            simp only [mLookup, hmm, Option.some_bind] at ht
            simp only [mLookup, MemoryUpstream.DelKey, hmm, Option.some_bind] at ht'
            by_cases hck : ck = b64encode k2
            · rw [hck, alLookup_erase_self] at ht'
              exact Option.noConfusion ht'
            · left
              rw [alLookup_erase_ne _ _ _ hck] at ht'
              injection ht.symm.trans ht' with h
              subst h
              exact ⟨le_refl _, le_refl _⟩
    | consume k2 nr nw =>
        have hnn2 : 0 ≤ nr ∧ 0 ≤ nw := hnn
        cases hmm : u.mm with
        | none =>
            simp only [mstep, MemoryUpstream.Consume, hmm] at hstep
            exact Option.noConfusion hstep
        | some m =>
            simp only [mstep, MemoryUpstream.Consume, hmm] at hstep
            injection hstep with hstep
            subst hstep
            simp only [mLookup, hmm, Option.some_bind] at ht
            simp only [mLookup, Option.some_bind] at ht'
            by_cases hck : ck = canonicalize k2
            · subst hck
              rw [alLookup_insert_self] at ht'
              rw [ht, Option.getD_some] at ht'
              have hb := hov m hmm
              rw [ht, Option.getD_some] at hb
              left
              rw [← Option.some.inj ht']
              constructor
              · show t.up ≤ wrap64 (t.up + nr)
                rw [wrap64_eq_self _ hb.1 hb.2.1]
                omega
              · show t.down ≤ wrap64 (t.down + nw)
                rw [wrap64_eq_self _ hb.2.2.1 hb.2.2.2]
                omega
            · left
              rw [alLookup_insert_ne _ _ _ _ hck] at ht'
              injection ht.symm.trans ht' with h
              subst h
              exact ⟨le_refl _, le_refl _⟩
  · intro cop u st ck t t' hnn hov ht ht'
    cases cop with
    | addKey k2 =>
        by_cases hex : stExists st (u.pfx ++ b64encode k2) = true
        · have h2 : cstep u st (.addKey k2) = st := by
            simp [cstep, CaddyUpstream.AddKey, hex]
          rw [h2] at ht'
          injection ht.symm.trans ht' with h
          subst h
          exact ⟨le_refl _, le_refl _⟩
        · simp only [Bool.not_eq_true] at hex
          have h2 : cstep u st (.addKey k2) =
              stStore st (u.pfx ++ b64encode k2) (.traffic ⟨0, 0⟩) := by
            simp [cstep, CaddyUpstream.AddKey, hex]
          rw [h2] at ht'
          by_cases hck : ck = u.pfx ++ b64encode k2
          · exfalso
            have hnone : alLookup st.data ck = none := by
              rw [hck]
              exact stExists_false_lookup st _ hex
            simp only [cLook, hnone] at ht
            exact Option.noConfusion ht
          · rw [cLook_store_ne _ _ _ _ hck] at ht'
            injection ht.symm.trans ht' with h
            subst h
            exact ⟨le_refl _, le_refl _⟩
    | delKey k2 =>
        by_cases hex : stExists st (u.pfx ++ b64encode k2) = true
        · have h2 : cstep u st (.delKey k2) =
              stDelete st (u.pfx ++ b64encode k2) := by
            simp [cstep, CaddyUpstream.DelKey, hex]
          rw [h2] at ht'
          by_cases hck : ck = u.pfx ++ b64encode k2
          · rw [hck, cLook_delete_self] at ht'
            exact Option.noConfusion ht'
          · rw [cLook_delete_ne _ _ _ hck] at ht'
            injection ht.symm.trans ht' with h
            subst h
            exact ⟨le_refl _, le_refl _⟩
        · simp only [Bool.not_eq_true] at hex
          have h2 : cstep u st (.delKey k2) = st := by
            simp [cstep, CaddyUpstream.DelKey, hex]
          rw [h2] at ht'
          injection ht.symm.trans ht' with h
          subst h
          exact ⟨le_refl _, le_refl _⟩
    | consume k2 nr nw =>
        have hnn2 : 0 ≤ nr ∧ 0 ≤ nw := hnn
        cases hL : stLoad st (u.pfx ++ canonicalize k2) with
        | error e =>
            have h2 : cstep u st (.consume k2 nr nw) =
                stUnlock (stLock st (u.pfx ++ canonicalize k2))
                  (u.pfx ++ canonicalize k2) := by
              simp only [cstep, CaddyUpstream.Consume, stLoad_lock, hL]
            rw [h2] at ht'
            have hsame : cLook (stUnlock (stLock st (u.pfx ++ canonicalize k2))
                (u.pfx ++ canonicalize k2)) ck = cLook st ck := rfl
            rw [hsame] at ht'
            injection ht.symm.trans ht' with h
            subst h
            exact ⟨le_refl _, le_refl _⟩
        | ok b =>
            cases b with
            | corrupt =>
                have h2 : cstep u st (.consume k2 nr nw) =
                    stUnlock (stLock st (u.pfx ++ canonicalize k2))
                      (u.pfx ++ canonicalize k2) := by
                  simp only [cstep, CaddyUpstream.Consume, stLoad_lock, hL,
                    unmarshalTraffic]
                rw [h2] at ht'
                have hsame : cLook (stUnlock (stLock st (u.pfx ++ canonicalize k2))
                    (u.pfx ++ canonicalize k2)) ck = cLook st ck := rfl
                rw [hsame] at ht'
                injection ht.symm.trans ht' with h
                subst h
                exact ⟨le_refl _, le_refl _⟩
            | traffic t3 =>
                have h2 : cstep u st (.consume k2 nr nw) =
                    stUnlock (stStore (stLock st (u.pfx ++ canonicalize k2))
                      (u.pfx ++ canonicalize k2)
                      (.traffic ⟨wrap64 (t3.up + nr), wrap64 (t3.down + nw)⟩))
                      (u.pfx ++ canonicalize k2) := by
                  simp only [cstep, CaddyUpstream.Consume, stLoad_lock, hL,
                    unmarshalTraffic]
                rw [h2] at ht'
                have hsame : cLook (stUnlock (stStore
                    (stLock st (u.pfx ++ canonicalize k2))
                    (u.pfx ++ canonicalize k2)
                    (.traffic ⟨wrap64 (t3.up + nr), wrap64 (t3.down + nw)⟩))
                    (u.pfx ++ canonicalize k2)) ck =
                  cLook (stStore st (u.pfx ++ canonicalize k2)
                    (.traffic ⟨wrap64 (t3.up + nr), wrap64 (t3.down + nw)⟩)) ck := rfl
                rw [hsame] at ht'
                have hlook := stLoad_ok_lookup st _ _ hL
                have ht3 : cLook st (u.pfx ++ canonicalize k2) = some t3 := by
                  simp only [cLook, hlook]
                by_cases hck : ck = u.pfx ++ canonicalize k2
                · subst hck
                  rw [cLook_store_self] at ht'
                  have htt : t = t3 := Option.some.inj (ht.symm.trans ht3)
                  subst htt
                  have hb := hov t ht3
                  injection ht' with h
                  rw [← h]
                  constructor
                  · show t.up ≤ wrap64 (t.up + nr)
                    rw [wrap64_eq_self _ hb.1 hb.2.1]
                    omega
                  · show t.down ≤ wrap64 (t.down + nw)
                    rw [wrap64_eq_self _ hb.2.2.1 hb.2.2.2]
                    omega
                · rw [cLook_store_ne _ _ _ _ hck] at ht'
                  injection ht.symm.trans ht' with h
                  subst h
                  exact ⟨le_refl _, le_refl _⟩

/-- C9 witness: one in-memory consume step and one persistent consume step at
concrete states, run through the amended monotonicity theorem. -/
theorem C9_witness :
    (((⟨1, 1⟩ : Traffic).up ≤ (⟨2, 3⟩ : Traffic).up ∧
        (⟨1, 1⟩ : Traffic).down ≤ (⟨2, 3⟩ : Traffic).down) ∨
      ∃ k2, MOp.consume [1] 1 2 = MOp.addKey k2 ∧ (⟨2, 3⟩ : Traffic) = ⟨0, 0⟩) ∧
    ((⟨4, 5⟩ : Traffic).up ≤ (⟨5, 6⟩ : Traffic).up ∧
      (⟨4, 5⟩ : Traffic).down ≤ (⟨5, 6⟩ : Traffic).down) := by
  constructor
  · exact C9_theorem.1 (MOp.consume [1] 1 2) ⟨some [(b64encode [1], ⟨1, 1⟩)]⟩
      ⟨some [(b64encode [1], ⟨2, 3⟩)]⟩ (b64encode [1]) ⟨1, 1⟩ ⟨2, 3⟩
      ⟨by decide, by decide⟩
      (by
        intro m hm
        have hm2 : [(b64encode [1], (⟨1, 1⟩ : Traffic))] = m := Option.some.inj hm
        subst hm2
        exact ⟨by decide, by decide, by decide, by decide⟩)
      (by decide) (by decide) (by decide)
  · exact C9_theorem.2 (COp.consume [2] 1 1) ⟨trojanNs⟩
      ⟨[(trojanNs ++ b64encode [2], .val (.traffic ⟨4, 5⟩))], [], false⟩
      (trojanNs ++ b64encode [2]) ⟨4, 5⟩ ⟨5, 6⟩
      ⟨by decide, by decide⟩
      (by
        intro t4 ht4
        have h45 : t4 = ⟨4, 5⟩ := (Option.some.inj
          ((by decide : cLook ⟨[(trojanNs ++ b64encode [2], .val (.traffic ⟨4, 5⟩))],
              [], false⟩ (trojanNs ++ canonicalize [2]) = some ⟨4, 5⟩).symm.trans ht4)).symm
        subst h45
        exact ⟨by decide, by decide, by decide, by decide⟩)
      (by decide) (by decide)
